import Mathlib

/-
Verification of the grafana2matrix alert state and notification scheduling
engine: a shallow embedding of the alert deduplication webhook handler, the
mention policy evaluator, the summary schedule evaluator and the silence
workflow, together with proofs about their behaviour.

Timestamps are modelled as Int milliseconds since the epoch (the value of
Date.now and Date.getTime in the source).  Duration comparisons that the
source performs on durationMinutes, a float equal to durMs / 60000, are
modelled by the exact integer comparison durMs < delay * 60000, which agrees
with the float comparison for all realistic magnitudes.
-/

namespace G2M

/-- A JavaScript value that can occur inside the mentionsSent object of a
stored alert: the source writes booleans on initialisation and numbers when
recording a send time. -/
inductive JsVal where
  | bool (b : Bool)
  | num (n : Int)
deriving Repr, DecidableEq

/-- Association-list lookup, first binding wins; models both JS object
property access and an SQL SELECT on a primary key. -/
def alookup {α : Type} (l : List (String × α)) (k : String) : Option α :=
  match l with
  | [] => none
  | (k', v) :: t => if k' = k then some v else alookup t k

/-- Remove every binding of key k; models DELETE WHERE key = k, and the
delete half of INSERT OR REPLACE. -/
def eraseKey {α : Type} (l : List (String × α)) (k : String) : List (String × α) :=
  match l with
  | [] => []
  | (k', v) :: t => if k' = k then eraseKey t k else (k', v) :: eraseKey t k

/-- Remove every pair whose second component equals v; models
DELETE FROM message_map WHERE alert_id = v. -/
def eraseByVal (l : List (String × String)) (v : String) : List (String × String) :=
  match l with
  | [] => []
  | (k', v') :: t => if v' = v then eraseByVal t v else (k', v') :: eraseByVal t v

/-- One alert as carried by the webhook payload and as persisted in the
active_alerts table (db.js stores the JSON of the whole object). -/
structure Alert where
  fingerprint : String
  status : String
  labels : List (String × String)
  annotations : List (String × String)
  startsAt : Int
  mentionsSent : Option (List (String × JsVal))
deriving Repr, DecidableEq

/-- The persistent state store of db.js: the three SQLite tables
active_alerts (id to alert), message_map (event_id to alert_id) and
schedules (severity to last_sent). -/
structure Store where
  alerts : List (String × Alert)
  msgMap : List (String × String)
  schedules : List (String × Int)
deriving Repr, DecidableEq

/-- getAllActiveAlerts of db.js: every stored alert, with an empty
fingerprint patched to the row id. -/
def getAllActiveAlerts (st : Store) : List Alert :=
  st.alerts.map (fun p => if p.2.fingerprint = "" then { p.2 with fingerprint := p.1 } else p.2)

def getActiveAlert (st : Store) (id : String) : Option Alert :=
  alookup st.alerts id

def hasActiveAlert (st : Store) (id : String) : Bool :=
  (alookup st.alerts id).isSome

/-- setActiveAlert of db.js, INSERT OR REPLACE on the primary key. -/
def setActiveAlert (st : Store) (id : String) (a : Alert) : Store :=
  { st with alerts := eraseKey st.alerts id ++ [(id, a)] }

def deleteActiveAlert (st : Store) (id : String) : Store :=
  { st with alerts := eraseKey st.alerts id }

def hasMessageMap (st : Store) (eventId : String) : Bool :=
  (alookup st.msgMap eventId).isSome

def getAlertIdFromEvent (st : Store) (eventId : String) : Option String :=
  alookup st.msgMap eventId

def setMessageMap (st : Store) (eventId alertId : String) : Store :=
  { st with msgMap := eraseKey st.msgMap eventId ++ [(eventId, alertId)] }

def deleteMessageMapByAlertId (st : Store) (alertId : String) : Store :=
  { st with msgMap := eraseByVal st.msgMap alertId }

/-- getLastSentSchedule of db.js: the stored value, or -1 when the severity
has no row. -/
def getLastSentSchedule (st : Store) (severity : String) : Int :=
  (alookup st.schedules severity).getD (-1)

def setLastSentSchedule (st : Store) (severity : String) (time : Int) : Store :=
  { st with schedules := eraseKey st.schedules severity ++ [(severity, time)] }

/-- ASCII upper-casing of one character, the effect of JS toUpperCase on
the label values this program meets. -/
def upChar (c : Char) : Char :=
  if 'a' ≤ c ∧ c ≤ 'z' then Char.ofNat (c.toNat - 32) else c

/-- JS String.prototype.toUpperCase. -/
def jsToUpper (s : String) : String := String.mk (s.data.map upChar)

def splitOnAux (sep : Char) : List Char → List Char → List (List Char)
  | [], cur => [cur.reverse]
  | c :: rest, cur =>
    if c = sep then cur.reverse :: splitOnAux sep rest []
    else splitOnAux sep rest (c :: cur)

/-- JS String.prototype.split with a one-character separator; the empty
string splits to a list holding one empty string. -/
def jsSplit (s : String) (sep : Char) : List String :=
  (splitOnAux sep s.data []).map String.mk

def isSpaceChar (c : Char) : Bool :=
  decide (c = ' ') || decide (c = '\t') || decide (c = '\n') || decide (c = '\r')

/-- JS String.prototype.trim on the whitespace forms a schedule string can
contain. -/
def jsTrim (s : String) : String :=
  String.mk (((s.data.dropWhile isSpaceChar).reverse.dropWhile isSpaceChar).reverse)

def digitsToNatAux : List Char → Nat → Option Nat
  | [], acc => some acc
  | c :: t, acc =>
    if '0' ≤ c ∧ c ≤ '9' then digitsToNatAux t (acc * 10 + (c.toNat - '0'.toNat))
    else none

/-- The value of a non-empty all-digit character list, none otherwise. -/
def digitsToNat? (l : List Char) : Option Nat :=
  if l = [] then none else digitsToNatAux l 0

/-- Insertion sort; models JS Array.prototype.sort with the numeric and
lexicographic comparators used by the source, on which any two elements
ranked equal are identical values, so every stable or unstable sort
produces the same list. -/
def insertSorted {α : Type} (le : α → α → Bool) (a : α) : List α → List α
  | [] => [a]
  | b :: t => if le a b then a :: b :: t else b :: insertSorted le a t

def sortList {α : Type} (le : α → α → Bool) (l : List α) : List α :=
  l.foldr (insertSorted le) []

def dedupAux : List String → List String → List String
  | [], _ => []
  | a :: t, seen => if a ∈ seen then dedupAux t seen else a :: dedupAux t (a :: seen)

/-- JS spread of new Set: the list without duplicates, first occurrences
kept in order. -/
def jsSetDedup (l : List String) : List String := dedupAux l []

/-- isCritical of util.js. -/
def isCritical (s : String) : Bool :=
  decide (jsToUpper s = "CRITICAL") || decide (jsToUpper s = "CRIT")

/-- isWarn of util.js. -/
def isWarn (s : String) : Bool :=
  decide (jsToUpper s = "WARNING") || decide (jsToUpper s = "WARN")

/-- JS Number conversion on the string fragment that schedule parsing can
meet: the empty string converts to 0, an optional sign followed by decimal
digits converts to that integer, and anything else is NaN (none). -/
def jsNumber (s : String) : Option Int :=
  match s.data with
  | [] => some 0
  | '-' :: rest => (digitsToNat? rest).map (fun n => -(n : Int))
  | '+' :: rest => (digitsToNat? rest).map (fun n => (n : Int))
  | _ => (digitsToNat? s.data).map (fun n => (n : Int))

/-- parseTimeToMinutes of util.js: split on the colon, convert the first two
parts with Number, return -1 if the input is empty or either part is NaN
(a missing minute part destructures to undefined, whose isNaN test is also
true), and otherwise hours times 60 plus minutes with no range check. -/
def parseTimeToMinutes (timeStr : String) : Int :=
  if timeStr = "" then -1
  else
    let parts := (jsSplit timeStr ':').map jsNumber
    match parts.getD 0 none, parts.getD 1 none with
    | some h, some m => h * 60 + m
    | _, _ => -1

/-- getScheduleTimestamp of util.js: Date.UTC of the current UTC day with
hour Math.floor of m over 60 and minute the JS remainder m mod 60; dayStart
is the millisecond timestamp of the current UTC midnight.  Both JS
operations are linear, so out-of-range fields simply shift the timestamp. -/
def getScheduleTimestamp (dayStart m : Int) : Int :=
  dayStart + (Int.fdiv m 60) * 3600000 + (Int.tmod m 60) * 60000

/-- The scheduled minute-of-day list that checkSchedule of util.js builds
from a schedule string: split on commas, trim, parse, keep the non-negative
results, sort ascending. -/
def parseScheduleMinutes (scheduleStr : String) : List Int :=
  sortList (fun a b => decide (a ≤ b))
    (((jsSplit scheduleStr ',').map (fun s => parseTimeToMinutes (jsTrim s))).filter
      (fun m => decide (0 ≤ m)))

/-- The scheduled timestamps of checkSchedule of util.js for the current
day. -/
def parsedScheduleTimestamps (dayStart : Int) (scheduleStr : String) : List Int :=
  (parseScheduleMinutes scheduleStr).map (getScheduleTimestamp dayStart)

/-- The legacy conversion step at the head of checkSchedule of util.js: a
last-sent value below 10000 is an old minute-of-day encoding (v0.1.9) and is
converted to a timestamp of the current day and written back; the returned
pair is the store and the last-sent value the comparison loop uses. -/
def scheduleBase (dayStart : Int) (st : Store) (severity : String) : Store × Int :=
  if getLastSentSchedule st severity < 10000 then
    (setLastSentSchedule st severity
       (getScheduleTimestamp dayStart (getLastSentSchedule st severity)),
     getScheduleTimestamp dayStart (getLastSentSchedule st severity))
  else (st, getLastSentSchedule st severity)

/-- checkSchedule of util.js: parse the schedule into absolute timestamps of
the current day, convert a legacy minute-of-day last-sent value (below
10000) into a timestamp, then fire on the first scheduled timestamp that is
strictly below now and strictly above the last-sent value, persisting it;
returns the updated store and whether a summary is due. -/
def checkSchedule (dayStart now : Int) (st : Store) (severity scheduleStr : String) :
    Store × Bool :=
  if scheduleStr = "" then (st, false)
  else if parsedScheduleTimestamps dayStart scheduleStr = [] then (st, false)
  else
    match (parsedScheduleTimestamps dayStart scheduleStr).find?
        (fun ts => decide (ts < now) && decide ((scheduleBase dayStart st severity).2 < ts)) with
    | some ts => (setLastSentSchedule (scheduleBase dayStart st severity).1 severity ts, true)
    | none => ((scheduleBase dayStart st severity).1, false)

/-- The mentionsSent object the webhook handler assigns to a brand-new
firing alert: the keys primary and secondary, both set to the boolean
false. -/
def initMentions : List (String × JsVal) :=
  [("primary", JsVal.bool false), ("secondary", JsVal.bool false)]

/-- One iteration of the deduplication loop of the webhook handler, acting
on the store and the alertsToNotify accumulator.  A firing alert absent from
the store is classified new-firing: it receives the initial mentionsSent
object, is appended to the notify list and stored.  A firing alert already
stored carries the existing mentionsSent object forward (or the initial one
if the stored alert has none) and is stored without being notified.  A
resolved alert that is stored is deleted together with its message mappings
and notified; a resolved alert that is not stored is notified without
touching the store.  Any other status is ignored. -/
def dedupStep (acc : Store × List Alert) (alert : Alert) : Store × List Alert :=
  let st := acc.1
  let notify := acc.2
  let id := alert.fingerprint
  if alert.status = "firing" then
    match alookup st.alerts id with
    | none =>
      let a := { alert with mentionsSent := some initMentions }
      (setActiveAlert st id a, notify ++ [a])
    | some existing =>
      let carried := match existing.mentionsSent with
        | some m => some m
        | none => some initMentions
      (setActiveAlert st id { alert with mentionsSent := carried }, notify)
  else if alert.status = "resolved" then
    match alookup st.alerts id with
    | some _ => (deleteMessageMapByAlertId (deleteActiveAlert st id) id, notify ++ [alert])
    | none => (st, notify ++ [alert])
  else (st, notify)

/-- The whole deduplication loop over a webhook batch. -/
def dedupLoop (st : Store) (batch : List Alert) : Store × List Alert :=
  batch.foldl dedupStep (st, [])

/-- Recording of sent message ids: for each notified alert whose send
returned an event id and whose status is firing, map the event id to the
fingerprint. -/
def recordMessages (st : Store) (pairs : List (Alert × Option String)) : Store :=
  pairs.foldl
    (fun st p =>
      match p.2 with
      | some eid => if p.1.status = "firing" then setMessageMap st eid p.1.fingerprint else st
      | none => st)
    st

/-- One step of the zombie pruning pass: keep an alert whose fingerprint was
received in the batch, delete any other together with its message mappings. -/
def pruneStep (received : List String) (acc : Store) (a : Alert) : Store :=
  if a.fingerprint ∈ received then acc
  else deleteMessageMapByAlertId (deleteActiveAlert acc a.fingerprint) a.fingerprint

/-- The zombie pruning pass of the webhook handler: iterate over a snapshot
of the stored alerts and delete (together with its message mappings) every
one whose fingerprint is not in the set of fingerprints received in the
batch. -/
def pruneZombies (st : Store) (received : List String) : Store :=
  (getAllActiveAlerts st).foldl (pruneStep received) st

structure WebhookResult where
  store : Store
  notify : List Alert
deriving Repr, DecidableEq

/-- The Unified-Alerting branch of the webhook handler: run the
deduplication loop; if the notify list is empty, return early (no message
map updates and no zombie pruning); otherwise record the message ids
returned by the transport (one Option String per notified alert) and then
prune zombies against the fingerprints of the whole batch. -/
def processUnifiedWebhook (st : Store) (batch : List Alert) (eventIds : List (Option String)) :
    WebhookResult :=
  let r := dedupLoop st batch
  if r.2 = [] then ⟨r.1, r.2⟩
  else
    let st2 := recordMessages r.1 (r.2.zip eventIds)
    let st3 := pruneZombies st2 (batch.map (fun a => a.fingerprint))
    ⟨st3, r.2⟩

/-- The legacy-format branch of the webhook handler renders and sends one
message built from state, title, message and ruleUrl; it performs no store
operation at all, so its effect on the store is the identity. -/
def processLegacyWebhook (st : Store) : Store := st

/-- The per-host mention policy read from mention-config.json.  The delay
fields are minutes since alert start (negative means never); the repeat
fields are minutes between repeats, where none models the JS null or an
absent key. -/
structure MentionConf where
  primary : List String
  secondary : List String
  delay_crit_primary : Int
  delay_warn_primary : Int
  delay_crit_secondary : Int
  delay_warn_secondary : Int
  repeat_crit_primary : Option Int
  repeat_warn_primary : Option Int
  repeat_crit_secondary : Option Int
  repeat_warn_secondary : Option Int
deriving Repr, DecidableEq

/-- The mention type, primary or secondary, that indexes the config fields
and the last_sent keys. -/
inductive MType where
  | primary
  | secondary
deriving Repr, DecidableEq

def MType.str : MType → String
  | .primary => "primary"
  | .secondary => "secondary"

def MentionConf.delayCrit (c : MentionConf) : MType → Int
  | .primary => c.delay_crit_primary
  | .secondary => c.delay_crit_secondary

def MentionConf.delayWarn (c : MentionConf) : MType → Int
  | .primary => c.delay_warn_primary
  | .secondary => c.delay_warn_secondary

def MentionConf.repeatCrit (c : MentionConf) : MType → Option Int
  | .primary => c.repeat_crit_primary
  | .secondary => c.repeat_crit_secondary

def MentionConf.repeatWarn (c : MentionConf) : MType → Option Int
  | .primary => c.repeat_warn_primary
  | .secondary => c.repeat_warn_secondary

def MentionConf.users (c : MentionConf) : MType → List String
  | .primary => c.primary
  | .secondary => c.secondary

/-- The delay and repeat selected for a severity string: the crit pair if
the severity is critical, the warn pair if it is a warning, and otherwise
delay -1 with no repeat, which never mentions. -/
def selectPolicy (conf : MentionConf) (severity : String) (t : MType) : Int × Option Int :=
  if isCritical severity then (conf.delayCrit t, conf.repeatCrit t)
  else if isWarn severity then (conf.delayWarn t, conf.repeatWarn t)
  else (-1, none)

def lastSentKey (t : MType) : String := "last_sent_" ++ t.str

/-- The value the source reads as alert.mentionsSent at a last_sent key,
with the falsy-to-zero default: an absent object, an absent key, the number
zero and the boolean false all read as 0. -/
def lastSentOf (ms : Option (List (String × JsVal))) (key : String) : Int :=
  match ms with
  | none => 0
  | some l =>
    match alookup l key with
    | some (JsVal.num n) => n
    | some (JsVal.bool b) => if b then 1 else 0
    | none => 0

/-- JS property assignment on the mentionsSent object (created empty first
when absent): replace the binding when the key exists, append it
otherwise. -/
def msSet (ms : Option (List (String × JsVal))) (key : String) (v : Int) :
    List (String × JsVal) :=
  let l := ms.getD []
  if (alookup l key).isSome then
    l.map (fun p => if p.1 = key then (p.1, JsVal.num v) else p)
  else l ++ [(key, JsVal.num v)]

/-- getAlertValue of util.js: the label, else the annotation, else the
default, where an empty string is falsy and falls through. -/
def jsOrStr (o : Option String) (d : String) : String :=
  match o with
  | some s => if s = "" then d else s
  | none => d

def getAlertValue (a : Alert) (label : String) (dflt : String) : String :=
  jsOrStr (alookup a.labels label) (jsOrStr (alookup a.annotations label) dflt)

/-- checkMention of util.js, shared by the webhook and loop strategies.
The severity is read from labels then annotations with default UNKNOWN and
upper-cased; durMs is now minus the alert start.  Negative delay never
fires; below the delay threshold nothing fires; a null repeat fires exactly
in webhook strategy; repeat zero fires unconditionally in loop strategy;
negative repeat fires while the last_sent value still reads 0; positive
repeat (and repeat zero outside loop strategy) fires when now minus
last_sent reaches the repeat interval, updating last_sent on the alert. -/
def checkMentionU (conf : MentionConf) (alert : Alert) (t : MType) (strategy : String)
    (now : Int) : Bool × Alert :=
  let severity := jsToUpper (getAlertValue alert "severity" "UNKNOWN")
  let durMs := now - alert.startsAt
  let pol := selectPolicy conf severity t
  if pol.1 < 0 then (false, alert)
  else if durMs < pol.1 * 60000 then (false, alert)
  else
    match pol.2 with
    | none => (decide (strategy = "webhook"), alert)
    | some r =>
      if r = 0 ∧ strategy = "loop" then (true, alert)
      else
        let ls := lastSentOf alert.mentionsSent (lastSentKey t)
        if r < 0 then (decide (ls = 0), alert)
        else if r * 60000 ≤ now - ls then
          (true, { alert with mentionsSent := some (msSet alert.mentionsSent (lastSentKey t) now) })
        else (false, alert)

/-- The checkMention closure of the periodic tick in src/index.js, acting on
the mentionsSent object and the dirty flag of the enclosing loop body.  It
is the loop-strategy variant: a null repeat is handled by the webhook path
and never fires here; repeat zero fires every run; negative repeat fires
while last_sent reads 0 without marking anything; positive repeat fires when
the interval has elapsed, writing last_sent and setting dirty. -/
def checkMentionTick (conf : MentionConf) (severity : String) (durMs now : Int)
    (ms : Option (List (String × JsVal))) (dirty : Bool) (t : MType) :
    Bool × Option (List (String × JsVal)) × Bool :=
  let pol := selectPolicy conf severity t
  if pol.1 < 0 then (false, ms, dirty)
  else if durMs < pol.1 * 60000 then (false, ms, dirty)
  else
    match pol.2 with
    | none => (false, ms, dirty)
    | some r =>
      if r = 0 then (true, ms, dirty)
      else
        let ls := lastSentOf ms (lastSentKey t)
        if r < 0 then (decide (ls = 0), ms, dirty)
        else if r * 60000 ≤ now - ls then
          (true, some (msSet ms (lastSentKey t) now), true)
        else (false, ms, dirty)

/-- The per-alert body of the periodic mention check of src/index.js:
severity from labels then annotations (default empty) upper-cased, then
checkMention for secondary and primary in that order threading the
mentionsSent object and the dirty flag; returns the users to mention, the
possibly updated alert and the dirty flag. -/
def tickEvalAlert (conf : MentionConf) (now : Int) (alert : Alert) :
    List String × Alert × Bool :=
  let severity := jsToUpper (jsOrStr (alookup alert.labels "severity")
    (jsOrStr (alookup alert.annotations "severity") ""))
  let durMs := now - alert.startsAt
  let rs := checkMentionTick conf severity durMs now alert.mentionsSent false MType.secondary
  let rp := checkMentionTick conf severity durMs now rs.2.1 rs.2.2 MType.primary
  let users := (if rs.1 then conf.secondary else []) ++ (if rp.1 then conf.primary else [])
  (users, { alert with mentionsSent := rp.2.1 }, rp.2.2)

/-- The mention half of the periodic tick of src/index.js: iterate over a
snapshot of the stored alerts; skip alerts without a host (or instance)
label or without a config entry for it; evaluate the mention policy; when
the evaluation dirtied the mentionsSent object, persist the updated alert
under its fingerprint; collect the alerts that need a mention together with
their deduplicated sorted user lists. -/
def tickStep (mcfg : List (String × MentionConf)) (now : Int)
    (acc : Store × List (String × List String)) (alert : Alert) :
    Store × List (String × List String) :=
  let host := jsOrStr (alookup alert.labels "host")
    (jsOrStr (alookup alert.labels "instance") "")
  if host = "" then acc
  else
    match alookup mcfg host with
    | none => acc
    | some conf =>
      let r := tickEvalAlert conf now alert
      let st1 := if r.2.2 then setActiveAlert acc.1 alert.fingerprint r.2.1 else acc.1
      let users := sortList (fun a b => decide (a ≤ b)) (jsSetDedup r.1)
      if users = [] then (st1, acc.2)
      else (st1, acc.2 ++ [(alert.fingerprint, users)])

def tickMentions (mcfg : List (String × MentionConf)) (now : Int) (st : Store) :
    Store × List (String × List String) :=
  (getAllActiveAlerts st).foldl (tickStep mcfg now) (st, [])

/-- The value of calling an async JS function without awaiting it: a
Promise object holding the eventual result. -/
inductive JsAsync (α : Type) where
  | promise (eventual : α)
deriving Repr, DecidableEq

/-- Truthiness of a Promise object in a JS condition: always true,
whatever the eventual result is. -/
def JsAsync.truthy {α : Type} : JsAsync α → Bool := fun _ => true

structure SilenceResult where
  store : Store
  messages : List String
  reaction : Option String
deriving Repr, DecidableEq

/-- createGrafanaSilence of the current index.js: look the alert up; call
sendGrafanaSilence, an async function, without awaiting it, so that
silenceResult is the pending Promise; test its truthiness: on the (always
taken) success branch send the confirmation message, delete the alert and
its message mappings and react with the confirm emoji, on the (dead)
failure branch send a failure notice, leave the store untouched and react
with the stop emoji.  grafanaOutcome is the eventual result the Grafana
call would settle to. -/
def createGrafanaSilence (st : Store) (alertId : String) (matrixEventId : Option String)
    (grafanaOutcome : Bool) : SilenceResult :=
  match getActiveAlert st alertId with
  | none => ⟨st, [], none⟩
  | some alert =>
    let silenceResult : JsAsync Bool := JsAsync.promise grafanaOutcome
    if silenceResult.truthy then
      let msg := "🔇 Alert silenced for 24h: " ++
        (alookup alert.annotations "severity").getD "undefined" ++ " " ++
        (alookup alert.labels "host").getD "undefined" ++ " " ++
        (alookup alert.labels "alertname").getD "undefined"
      let st1 := deleteMessageMapByAlertId (deleteActiveAlert st alertId) alertId
      ⟨st1, [msg], matrixEventId.map (fun _ => "☑️")⟩
    else
      let msg := "Alert could not be silenced: " ++
        (alookup alert.annotations "severity").getD "undefined" ++ " " ++
        (alookup alert.labels "host").getD "undefined" ++ " " ++
        (alookup alert.labels "alertname").getD "undefined"
      ⟨st, [msg], matrixEventId.map (fun _ => "⛔️")⟩

/-- Well-formedness of the store, as established by the operations of the
program: the active_alerts keys are pairwise distinct, every stored alert
carries its row id as fingerprint, and every stored alert is firing. -/
def StoreWF (st : Store) : Prop :=
  (st.alerts.map Prod.fst).Nodup ∧
  ∀ p ∈ st.alerts, p.2.fingerprint = p.1 ∧ p.2.status = "firing"

instance (st : Store) : Decidable (StoreWF st) := by
  unfold StoreWF; infer_instance

/-! Association list lemmas. -/

theorem alookup_append {α : Type} (l1 l2 : List (String × α)) (k : String) :
    alookup (l1 ++ l2) k =
      match alookup l1 k with
      | some v => some v
      | none => alookup l2 k := by
  induction l1 with
  | nil => simp [alookup]
  | cons p t ih =>
    obtain ⟨k', v⟩ := p
    by_cases h : k' = k
    · simp [alookup, h]
    · simp [alookup, h, ih]

theorem alookup_eraseKey_self {α : Type} (l : List (String × α)) (k : String) :
    alookup (eraseKey l k) k = none := by
  induction l with
  | nil => simp [eraseKey, alookup]
  | cons p t ih =>
    obtain ⟨k', v⟩ := p
    by_cases h : k' = k
    · simp [eraseKey, h, ih]
    · simp [eraseKey, alookup, h, ih]

theorem alookup_eraseKey_ne {α : Type} (l : List (String × α)) {k' k : String} (h : k' ≠ k) :
    alookup (eraseKey l k') k = alookup l k := by
  induction l with
  | nil => simp [eraseKey]
  | cons p t ih =>
    obtain ⟨k0, v⟩ := p
    by_cases h0 : k0 = k'
    · simp [eraseKey, alookup, h0, h, ih]
    · simp [eraseKey, alookup, h0, ih]

theorem mem_eraseKey {α : Type} {l : List (String × α)} {k : String} {p : String × α}
    (h : p ∈ eraseKey l k) : p ∈ l ∧ p.1 ≠ k := by
  induction l with
  | nil => simp [eraseKey] at h
  | cons q t ih =>
    obtain ⟨k', v⟩ := q
    by_cases h0 : k' = k
    · simp only [eraseKey, if_pos h0] at h
      exact ⟨List.mem_cons_of_mem _ (ih h).1, (ih h).2⟩
    · simp only [eraseKey, if_neg h0] at h
      rcases List.mem_cons.mp h with h1 | h1
      · subst h1; exact ⟨List.mem_cons_self _ _, h0⟩
      · exact ⟨List.mem_cons_of_mem _ (ih h1).1, (ih h1).2⟩

theorem eraseKey_map_fst_sublist {α : Type} (l : List (String × α)) (k : String) :
    ((eraseKey l k).map Prod.fst).Sublist (l.map Prod.fst) := by
  induction l with
  | nil => simp [eraseKey]
  | cons q t ih =>
    obtain ⟨k', v⟩ := q
    by_cases h0 : k' = k
    · simp only [eraseKey, if_pos h0, List.map_cons]
      exact ih.trans (List.sublist_cons_self _ _)
    · simp only [eraseKey, if_neg h0, List.map_cons]
      exact ih.cons₂ _

theorem mem_eraseByVal {l : List (String × String)} {v : String} {p : String × String}
    (h : p ∈ eraseByVal l v) : p ∈ l ∧ p.2 ≠ v := by
  induction l with
  | nil => simp [eraseByVal] at h
  | cons q t ih =>
    obtain ⟨k', v'⟩ := q
    by_cases h0 : v' = v
    · simp only [eraseByVal, if_pos h0] at h
      exact ⟨List.mem_cons_of_mem _ (ih h).1, (ih h).2⟩
    · simp only [eraseByVal, if_neg h0] at h
      rcases List.mem_cons.mp h with h1 | h1
      · subst h1; exact ⟨List.mem_cons_self _ _, h0⟩
      · exact ⟨List.mem_cons_of_mem _ (ih h1).1, (ih h1).2⟩

theorem alookup_of_mem_nodup {α : Type} {l : List (String × α)} {k : String} {a : α}
    (hnd : (l.map Prod.fst).Nodup) (h : (k, a) ∈ l) : alookup l k = some a := by
  induction l with
  | nil => simp at h
  | cons q t ih =>
    obtain ⟨k', v⟩ := q
    simp only [List.map_cons, List.nodup_cons] at hnd
    rcases List.mem_cons.mp h with h1 | h1
    · injection h1 with hk hv
      subst hk
      subst hv
      simp [alookup]
    · have hk : k' ≠ k := by
        intro he
        subst he
        exact hnd.1 (List.mem_map.mpr ⟨(k', a), h1, rfl⟩)
      simp only [alookup, if_neg hk]
      exact ih hnd.2 h1

theorem mem_of_alookup_eq_some {α : Type} {l : List (String × α)} {k : String} {a : α}
    (h : alookup l k = some a) : (k, a) ∈ l := by
  induction l with
  | nil => simp [alookup] at h
  | cons q t ih =>
    obtain ⟨k', v⟩ := q
    by_cases h0 : k' = k
    · subst h0
      simp [alookup] at h
      subst h
      exact List.mem_cons_self _ _
    · simp only [alookup, if_neg h0] at h
      exact List.mem_cons_of_mem _ (ih h)

/-! Well-formedness preservation (claim C4 machinery). -/

theorem wf_setActiveAlert {st : Store} (hwf : StoreWF st) {id : String} {a : Alert}
    (hfp : a.fingerprint = id) (hst : a.status = "firing") :
    StoreWF (setActiveAlert st id a) := by
  obtain ⟨hnd, hall⟩ := hwf
  constructor
  · simp only [setActiveAlert, List.map_append, List.map_cons, List.map_nil]
    apply List.Nodup.append
    · exact hnd.sublist (eraseKey_map_fst_sublist st.alerts id)
    · simp
    · intro x hx hy
      simp only [List.mem_singleton] at hy
      subst hy
      obtain ⟨p, hp, hpe⟩ := List.mem_map.mp hx
      exact (mem_eraseKey hp).2 hpe
  · intro p hp
    simp only [setActiveAlert, List.mem_append, List.mem_singleton] at hp
    rcases hp with hp | hp
    · exact hall p (mem_eraseKey hp).1
    · subst hp
      exact ⟨hfp, hst⟩

theorem wf_deleteActiveAlert {st : Store} (hwf : StoreWF st) (id : String) :
    StoreWF (deleteActiveAlert st id) := by
  obtain ⟨hnd, hall⟩ := hwf
  exact ⟨hnd.sublist (eraseKey_map_fst_sublist st.alerts id),
    fun p hp => hall p (mem_eraseKey hp).1⟩

theorem alerts_deleteMessageMapByAlertId (st : Store) (id : String) :
    (deleteMessageMapByAlertId st id).alerts = st.alerts := rfl

theorem alerts_setMessageMap (st : Store) (e a : String) :
    (setMessageMap st e a).alerts = st.alerts := rfl

theorem alerts_setLastSentSchedule (st : Store) (sev : String) (t : Int) :
    (setLastSentSchedule st sev t).alerts = st.alerts := rfl

theorem wf_of_alerts_eq {st st' : Store} (hwf : StoreWF st)
    (h : st'.alerts = st.alerts) : StoreWF st' := by
  obtain ⟨hnd, hall⟩ := hwf
  exact ⟨h ▸ hnd, fun p hp => hall p (h ▸ hp)⟩

theorem wf_dedupStep {acc : Store × List Alert} (hwf : StoreWF acc.1) (alert : Alert) :
    StoreWF (dedupStep acc alert).1 := by
  unfold dedupStep
  by_cases hf : alert.status = "firing"
  · simp only [if_pos hf]
    cases h : alookup acc.1.alerts alert.fingerprint with
    | none => exact wf_setActiveAlert hwf rfl hf
    | some existing => exact wf_setActiveAlert hwf rfl hf
  · simp only [if_neg hf]
    by_cases hr : alert.status = "resolved"
    · simp only [if_pos hr]
      cases h : alookup acc.1.alerts alert.fingerprint with
      | none => exact hwf
      | some a =>
        exact wf_of_alerts_eq (wf_deleteActiveAlert hwf alert.fingerprint)
          (alerts_deleteMessageMapByAlertId _ _)
    · simp only [if_neg hr]
      exact hwf

theorem wf_dedupFoldl (batch : List Alert) (acc : Store × List Alert)
    (hwf : StoreWF acc.1) : StoreWF (batch.foldl dedupStep acc).1 := by
  induction batch generalizing acc with
  | nil => exact hwf
  | cons a t ih => exact ih _ (wf_dedupStep hwf a)

theorem alerts_recordMessages (st : Store) (pairs : List (Alert × Option String)) :
    (recordMessages st pairs).alerts = st.alerts := by
  induction pairs generalizing st with
  | nil => rfl
  | cons p t ih =>
    unfold recordMessages at ih ⊢
    cases h : p.2 with
    | none => simp only [List.foldl_cons, h]; exact ih st
    | some eid =>
      simp only [List.foldl_cons, h]
      by_cases hf : p.1.status = "firing"
      · simp only [if_pos hf]
        rw [ih, alerts_setMessageMap]
      · simp only [if_neg hf]
        exact ih st

theorem wf_pruneFoldl (l : List Alert) (st : Store) (recv : List String)
    (hwf : StoreWF st) :
    StoreWF (l.foldl (pruneStep recv) st) := by
  induction l generalizing st with
  | nil => exact hwf
  | cons a t ih =>
    simp only [List.foldl_cons, pruneStep]
    by_cases h : a.fingerprint ∈ recv
    · simp only [if_pos h]
      exact ih st hwf
    · simp only [if_neg h]
      exact ih _ (wf_of_alerts_eq (wf_deleteActiveAlert hwf a.fingerprint)
        (alerts_deleteMessageMapByAlertId _ _))

theorem wf_pruneZombies {st : Store} (hwf : StoreWF st) (recv : List String) :
    StoreWF (pruneZombies st recv) :=
  wf_pruneFoldl _ st recv hwf

theorem wf_processUnifiedWebhook {st : Store} (hwf : StoreWF st) (batch : List Alert)
    (eids : List (Option String)) :
    StoreWF (processUnifiedWebhook st batch eids).store := by
  unfold processUnifiedWebhook
  by_cases h : (dedupLoop st batch).2 = []
  · simp only [if_pos h]
    exact wf_dedupFoldl batch (st, []) hwf
  · simp only [if_neg h]
    exact wf_pruneZombies (wf_of_alerts_eq (wf_dedupFoldl batch (st, []) hwf)
      (alerts_recordMessages _ _)) _

theorem status_of_mem_getAllActiveAlerts {st : Store} (hwf : StoreWF st) :
    ∀ a ∈ getAllActiveAlerts st, a.status = "firing" := by
  intro a ha
  obtain ⟨p, hp, he⟩ := List.mem_map.mp ha
  have hst := (hwf.2 p hp).2
  by_cases h : p.2.fingerprint = ""
  · simp only [if_pos h] at he
    subst he
    exact hst
  · simp only [if_neg h] at he
    subst he
    exact hst

theorem wf_tickFoldl (mcfg : List (String × MentionConf)) (now : Int) (l : List Alert)
    (hl : ∀ a ∈ l, a.status = "firing") (acc : Store × List (String × List String))
    (hwf : StoreWF acc.1) : StoreWF (l.foldl (tickStep mcfg now) acc).1 := by
  induction l generalizing acc with
  | nil => exact hwf
  | cons a t ih =>
    simp only [List.foldl_cons]
    apply ih (fun b hb => hl b (List.mem_cons_of_mem _ hb))
    unfold tickStep
    by_cases hh : jsOrStr (alookup a.labels "host") (jsOrStr (alookup a.labels "instance") "") = ""
    · simp only [if_pos hh]
      exact hwf
    · simp only [if_neg hh]
      cases hc : alookup mcfg (jsOrStr (alookup a.labels "host")
          (jsOrStr (alookup a.labels "instance") "")) with
      | none => exact hwf
      | some conf =>
        simp only []
        have hset : StoreWF (if (tickEvalAlert conf now a).2.2 then
            setActiveAlert acc.1 a.fingerprint (tickEvalAlert conf now a).2.1 else acc.1) := by
          by_cases hd : (tickEvalAlert conf now a).2.2
          · simp only [if_pos hd]
            exact wf_setActiveAlert hwf rfl (hl a (List.mem_cons_self _ _))
          · simp only [if_neg hd]
            exact hwf
        by_cases hu : sortList (fun a b => decide (a ≤ b))
            (jsSetDedup (tickEvalAlert conf now a).1) = []
        · simp only [if_pos hu]
          exact hset
        · simp only [if_neg hu]
          exact hset

theorem wf_tickMentions {st : Store} (hwf : StoreWF st) (mcfg : List (String × MentionConf))
    (now : Int) : StoreWF (tickMentions mcfg now st).1 :=
  wf_tickFoldl mcfg now _ (status_of_mem_getAllActiveAlerts hwf) (st, []) hwf

theorem alerts_scheduleBase (dayStart : Int) (st : Store) (sev : String) :
    (scheduleBase dayStart st sev).1.alerts = st.alerts := by
  unfold scheduleBase
  by_cases h : getLastSentSchedule st sev < 10000
  · simp only [if_pos h]
    rfl
  · simp only [if_neg h]

theorem alerts_checkSchedule (dayStart now : Int) (st : Store) (sev str : String) :
    (checkSchedule dayStart now st sev str).1.alerts = st.alerts := by
  unfold checkSchedule
  by_cases h1 : str = ""
  · simp only [if_pos h1]
  · simp only [if_neg h1]
    by_cases h2 : parsedScheduleTimestamps dayStart str = []
    · simp only [if_pos h2]
    · simp only [if_neg h2]
      cases hf : (parsedScheduleTimestamps dayStart str).find?
          (fun ts => decide (ts < now) && decide ((scheduleBase dayStart st sev).2 < ts)) with
      | none => simpa using alerts_scheduleBase dayStart st sev
      | some ts =>
        simp only []
        rw [alerts_setLastSentSchedule]
        exact alerts_scheduleBase dayStart st sev

theorem wf_checkSchedule {st : Store} (hwf : StoreWF st) (dayStart now : Int)
    (sev str : String) : StoreWF (checkSchedule dayStart now st sev str).1 :=
  wf_of_alerts_eq hwf (alerts_checkSchedule dayStart now st sev str)

theorem wf_createGrafanaSilence {st : Store} (hwf : StoreWF st) (aid : String)
    (mei : Option String) (outc : Bool) :
    StoreWF (createGrafanaSilence st aid mei outc).store := by
  unfold createGrafanaSilence
  cases h : getActiveAlert st aid with
  | none => exact hwf
  | some alert =>
    simp only [JsAsync.truthy, if_pos]
    exact wf_of_alerts_eq (wf_deleteActiveAlert hwf aid) (alerts_deleteMessageMapByAlertId _ _)

/-! Lookup lemmas for the store operations. -/

theorem alookup_eraseKey_none {α : Type} {l : List (String × α)} {id : String}
    (h : alookup l id = none) (k : String) : alookup (eraseKey l k) id = none := by
  by_cases hk : k = id
  · subst hk
    exact alookup_eraseKey_self l k
  · rw [alookup_eraseKey_ne l hk]
    exact h

theorem lookup_setActiveAlert_self (st : Store) (id : String) (a : Alert) :
    alookup (setActiveAlert st id a).alerts id = some a := by
  simp only [setActiveAlert]
  rw [alookup_append, alookup_eraseKey_self]
  simp [alookup]

theorem lookup_setActiveAlert_ne (st : Store) {id k : String} (h : id ≠ k) (a : Alert) :
    alookup (setActiveAlert st id a).alerts k = alookup st.alerts k := by
  simp only [setActiveAlert]
  rw [alookup_append, alookup_eraseKey_ne st.alerts h]
  cases hl : alookup st.alerts k with
  | some v => rfl
  | none => simp [alookup, h]

theorem lookup_deleteActiveAlert_ne (st : Store) {id k : String} (h : id ≠ k) :
    alookup (deleteActiveAlert st id).alerts k = alookup st.alerts k :=
  alookup_eraseKey_ne st.alerts h

theorem dedupStep_lookup_ne (acc : Store × List Alert) (alert : Alert) {id : String}
    (h : alert.fingerprint ≠ id) :
    alookup (dedupStep acc alert).1.alerts id = alookup acc.1.alerts id := by
  unfold dedupStep
  by_cases hf : alert.status = "firing"
  · simp only [if_pos hf]
    cases hl : alookup acc.1.alerts alert.fingerprint with
    | none => exact lookup_setActiveAlert_ne acc.1 h _
    | some existing => exact lookup_setActiveAlert_ne acc.1 h _
  · simp only [if_neg hf]
    by_cases hr : alert.status = "resolved"
    · simp only [if_pos hr]
      cases hl : alookup acc.1.alerts alert.fingerprint with
      | none => rfl
      | some a =>
        show alookup (deleteActiveAlert acc.1 alert.fingerprint).alerts id = _
        exact lookup_deleteActiveAlert_ne acc.1 h
    · simp only [if_neg hr]

theorem dedup_foldl_lookup_ne (batch : List Alert) (acc : Store × List Alert) {id : String}
    (h : id ∉ batch.map (fun b => b.fingerprint)) :
    alookup (batch.foldl dedupStep acc).1.alerts id = alookup acc.1.alerts id := by
  induction batch generalizing acc with
  | nil => rfl
  | cons a t ih =>
    simp only [List.map_cons, List.mem_cons] at h
    push_neg at h
    simp only [List.foldl_cons]
    rw [ih _ h.2]
    exact dedupStep_lookup_ne acc a (fun he => h.1 he.symm)

theorem prune_foldl_absent (l : List Alert) (recv : List String) (st : Store) (id : String)
    (h1 : alookup st.alerts id = none) (h2 : ∀ p ∈ st.msgMap, p.2 ≠ id) :
    alookup (l.foldl (pruneStep recv) st).alerts id = none ∧
      ∀ p ∈ (l.foldl (pruneStep recv) st).msgMap, p.2 ≠ id := by
  induction l generalizing st with
  | nil => exact ⟨h1, h2⟩
  | cons a t ih =>
    simp only [List.foldl_cons, pruneStep]
    by_cases h : a.fingerprint ∈ recv
    · simp only [if_pos h]
      exact ih st h1 h2
    · simp only [if_neg h]
      apply ih
      · exact alookup_eraseKey_none h1 _
      · intro p hp
        exact h2 p (mem_eraseByVal hp).1

theorem prune_foldl_deletes (l : List Alert) (recv : List String) (st : Store) (id : String)
    (h : ∃ a ∈ l, a.fingerprint = id ∧ id ∉ recv) :
    alookup (l.foldl (pruneStep recv) st).alerts id = none ∧
      ∀ p ∈ (l.foldl (pruneStep recv) st).msgMap, p.2 ≠ id := by
  induction l generalizing st with
  | nil => obtain ⟨a, ha, _⟩ := h; simp at ha
  | cons a t ih =>
    simp only [List.foldl_cons, pruneStep]
    obtain ⟨b, hb, hbfp, hbrecv⟩ := h
    rcases List.mem_cons.mp hb with hb1 | hb1
    · subst hb1
      rw [hbfp]
      simp only [if_neg hbrecv]
      apply prune_foldl_absent
      · exact alookup_eraseKey_self _ _
      · intro p hp
        exact (mem_eraseByVal hp).2
    · by_cases hc : a.fingerprint ∈ recv
      · simp only [if_pos hc]
        exact ih st ⟨b, hb1, hbfp, hbrecv⟩
      · simp only [if_neg hc]
        exact ih _ ⟨b, hb1, hbfp, hbrecv⟩

theorem mem_getAllActiveAlerts_of_mem {st : Store} {id : String} {a : Alert}
    (h : (id, a) ∈ st.alerts) (hfp : a.fingerprint = id) :
    ∃ b ∈ getAllActiveAlerts st, b.fingerprint = id := by
  by_cases he : a.fingerprint = ""
  · refine ⟨{ a with fingerprint := id }, ?_, rfl⟩
    apply List.mem_map.mpr
    exact ⟨(id, a), h, by simp [he]⟩
  · refine ⟨a, ?_, hfp⟩
    apply List.mem_map.mpr
    exact ⟨(id, a), h, by simp [he]⟩

theorem notify_processUnifiedWebhook (st : Store) (batch : List Alert)
    (eids : List (Option String)) :
    (processUnifiedWebhook st batch eids).notify = (dedupLoop st batch).2 := by
  unfold processUnifiedWebhook
  by_cases h : (dedupLoop st batch).2 = []
  · simp only [if_pos h]
  · simp only [if_neg h]

theorem msgMap_recordMessages_sub (st : Store) (pairs : List (Alert × Option String))
    {id : String} (h1 : ∀ p ∈ st.msgMap, p.2 ≠ id)
    (h2 : ∀ q ∈ pairs, q.1.fingerprint ≠ id) :
    ∀ p ∈ (recordMessages st pairs).msgMap, p.2 ≠ id := by
  induction pairs generalizing st with
  | nil => exact h1
  | cons q t ih =>
    unfold recordMessages
    simp only [List.foldl_cons]
    cases hq : q.2 with
    | none =>
      exact ih st h1 (fun r hr => h2 r (List.mem_cons_of_mem _ hr))
    | some eid =>
      by_cases hf : q.1.status = "firing"
      · simp only [if_pos hf]
        apply ih
        · intro p hp
          simp only [setMessageMap, List.mem_append, List.mem_singleton] at hp
          rcases hp with hp | hp
          · exact h1 p (mem_eraseKey hp).1
          · subst hp
            exact h2 q (List.mem_cons_self _ _)
        · exact fun r hr => h2 r (List.mem_cons_of_mem _ hr)
      · simp only [if_neg hf]
        exact ih st h1 (fun r hr => h2 r (List.mem_cons_of_mem _ hr))

/-- C4: every operation of the program on the store (unified webhook batch
processing, the legacy webhook branch, the mention half of the periodic
tick, the schedule evaluator and the silence workflow) preserves the store
invariant: at most one stored alert per fingerprint, the stored fingerprint
equals the row id, and every stored alert has status firing (resolved
alerts are deleted, never retained). -/
theorem c4_store_invariant (st : Store) (batch : List Alert) (eids : List (Option String))
    (mcfg : List (String × MentionConf)) (tickNow dayStart schedNow : Int) (sev str : String)
    (aid : String) (mei : Option String) (outc : Bool) (hwf : StoreWF st) :
    StoreWF (processUnifiedWebhook st batch eids).store ∧
    StoreWF (processLegacyWebhook st) ∧
    StoreWF (tickMentions mcfg tickNow st).1 ∧
    StoreWF (checkSchedule dayStart schedNow st sev str).1 ∧
    StoreWF (createGrafanaSilence st aid mei outc).store :=
  ⟨wf_processUnifiedWebhook hwf batch eids, hwf, wf_tickMentions hwf mcfg tickNow,
    wf_checkSchedule hwf dayStart schedNow sev str, wf_createGrafanaSilence hwf aid mei outc⟩

/-- A concrete store, batch and tick configuration on which the hypotheses
of c4_store_invariant hold and the invariant is preserved. -/
theorem c4_store_invariant_witness :
    StoreWF ⟨[("a", ⟨"a", "firing", [("host", "db1"), ("severity", "CRIT")], [], 0,
        some initMentions⟩)], [("ev1", "a")], [("CRIT", 28800000)]⟩ ∧
    (StoreWF (processUnifiedWebhook ⟨[("a", ⟨"a", "firing",
        [("host", "db1"), ("severity", "CRIT")], [], 0, some initMentions⟩)],
        [("ev1", "a")], [("CRIT", 28800000)]⟩
        [⟨"b", "resolved", [], [], 0, none⟩] [some "ev2"]).store ∧
      StoreWF (processLegacyWebhook ⟨[("a", ⟨"a", "firing",
        [("host", "db1"), ("severity", "CRIT")], [], 0, some initMentions⟩)],
        [("ev1", "a")], [("CRIT", 28800000)]⟩) ∧
      StoreWF (tickMentions [("db1", ⟨["@u1"], ["@u2"], 0, 30, 60, -1, some 60,
        some (-1), none, none⟩)] 7200000 ⟨[("a", ⟨"a", "firing",
        [("host", "db1"), ("severity", "CRIT")], [], 0, some initMentions⟩)],
        [("ev1", "a")], [("CRIT", 28800000)]⟩).1 ∧
      StoreWF (checkSchedule 0 28900000 ⟨[("a", ⟨"a", "firing",
        [("host", "db1"), ("severity", "CRIT")], [], 0, some initMentions⟩)],
        [("ev1", "a")], [("CRIT", 28800000)]⟩ "CRIT" "08:00,16:00").1 ∧
      StoreWF (createGrafanaSilence ⟨[("a", ⟨"a", "firing",
        [("host", "db1"), ("severity", "CRIT")], [], 0, some initMentions⟩)],
        [("ev1", "a")], [("CRIT", 28800000)]⟩ "a" (some "ev1") true).store) :=
  ⟨by decide, c4_store_invariant _ _ _ _ _ _ _ _ _ _ _ _ (by decide)⟩

/-! Claim C1: zombie pruning. -/

/-- Concrete counterexample data for claim C1: the store holds the firing
alerts a and b (a is the zombie), and the incoming batch redelivers only the
firing alert b, a pure duplicate. -/
def c1Zombie : Alert := ⟨"a", "firing", [], [], 0, some initMentions⟩

def c1Dup : Alert := ⟨"b", "firing", [], [], 0, some initMentions⟩

def c1Store : Store := ⟨[("a", c1Zombie), ("b", c1Dup)], [("evA", "a")], []⟩

def c1New : Alert := ⟨"c", "firing", [("alertname", "X")], [], 0, none⟩

/-- C1, counterexample: the claim that after every Unified-Alerting batch
each previously stored alert whose fingerprint is absent from the batch is
deleted is false: a batch that consists only of duplicate firing alerts
produces an empty notify list, the handler returns early, and the zombie
alert a (absent from the batch) survives together with its message-map
entry. -/
theorem c1_counterexample :
    ("a", c1Zombie) ∈ c1Store.alerts ∧
    "a" ∉ [c1Dup].map (fun b => b.fingerprint) ∧
    hasActiveAlert (processUnifiedWebhook c1Store [c1Dup] [some "ev"]).store "a" = true ∧
    ("evA", "a") ∈ (processUnifiedWebhook c1Store [c1Dup] [some "ev"]).store.msgMap := by
  decide

/-- C1, amended: for every Unified-Alerting webhook batch whose processing
produces a non-empty notify list (at least one new-firing or resolved
alert), every alert that was stored before the batch and whose fingerprint
is not in the batch fingerprint set is deleted from the store afterwards,
together with all of its message-map entries; a batch classified entirely
as duplicate-firing returns early and does not prune; the legacy
single-alert branch never touches the store, so pruning never runs there. -/
theorem c1_zombie_prune (st : Store) (batch : List Alert) (eids : List (Option String))
    (hwf : StoreWF st)
    (hne : (processUnifiedWebhook st batch eids).notify ≠ []) :
    (∀ id a, (id, a) ∈ st.alerts → id ∉ batch.map (fun b => b.fingerprint) →
      getActiveAlert (processUnifiedWebhook st batch eids).store id = none ∧
      ∀ p ∈ (processUnifiedWebhook st batch eids).store.msgMap, p.2 ≠ id) ∧
    (∀ st' : Store, processLegacyWebhook st' = st') := by
  constructor
  · intro id a hmem hnotin
    rw [notify_processUnifiedWebhook] at hne
    have hstore : (processUnifiedWebhook st batch eids).store =
        pruneZombies (recordMessages (dedupLoop st batch).1
          ((dedupLoop st batch).2.zip eids)) (batch.map (fun b => b.fingerprint)) := by
      unfold processUnifiedWebhook
      simp only [if_neg hne]
    rw [hstore]
    have h1 : alookup st.alerts id = some a := alookup_of_mem_nodup hwf.1 hmem
    have h2 : alookup (dedupLoop st batch).1.alerts id = some a := by
      unfold dedupLoop
      rw [dedup_foldl_lookup_ne batch _ hnotin]
      exact h1
    have h3 : alookup (recordMessages (dedupLoop st batch).1
        ((dedupLoop st batch).2.zip eids)).alerts id = some a := by
      rw [alerts_recordMessages]
      exact h2
    have hmem2 : (id, a) ∈ (recordMessages (dedupLoop st batch).1
        ((dedupLoop st batch).2.zip eids)).alerts := mem_of_alookup_eq_some h3
    have hfp : a.fingerprint = id := (hwf.2 (id, a) hmem).1
    obtain ⟨b, hbmem, hbfp⟩ := mem_getAllActiveAlerts_of_mem hmem2 hfp
    unfold pruneZombies
    exact prune_foldl_deletes _ _ _ _ ⟨b, hbmem, hbfp, hnotin⟩
  · intro st'
    rfl

/-- C1, witness: a batch containing a brand-new firing alert c has a
non-empty notify list, and processing it deletes the zombie alert a. -/
theorem c1_zombie_prune_witness :
    StoreWF c1Store ∧
    (processUnifiedWebhook c1Store [c1New] [some "ev2"]).notify ≠ [] ∧
    getActiveAlert (processUnifiedWebhook c1Store [c1New] [some "ev2"]).store "a" = none :=
  ⟨by decide, by decide,
    ((c1_zombie_prune c1Store [c1New] [some "ev2"] (by decide) (by decide)).1 "a" c1Zombie
      (by decide) (by decide)).1⟩

/-! Claim C5: the new-firing branch. -/

/-- The scenario alert of the spec: fingerprint abc123, labels alertname
HighCPU, host db1, severity CRIT, delivered firing. -/
def c5Abc : Alert := ⟨"abc123", "firing",
  [("alertname", "HighCPU"), ("host", "db1"), ("severity", "CRIT")], [], 0, none⟩

/-- C5, counterexample: the stored mention-tracking sub-record of a
new-firing alert is the object with keys primary and secondary both false,
which is not the object with keys last_sent_primary and last_sent_secondary
both zero that the claim states. -/
theorem c5_counterexample :
    ((getActiveAlert (processUnifiedWebhook ⟨[], [], []⟩ [c5Abc] [some "ev1"]).store
      "abc123").map Alert.mentionsSent) = some (some initMentions) ∧
    initMentions ≠
      [("last_sent_primary", JsVal.num 0), ("last_sent_secondary", JsVal.num 0)] := by
  decide

/-- C5, amended: a firing alert whose fingerprint is not in the store is
classified new-firing: it is appended to the individual-notify list and
stored with the mention-tracking sub-record with keys primary and secondary
both false; the last_sent_primary and last_sent_secondary fields are absent
from that record and therefore read as 0 by every consumer. -/
theorem c5_new_firing (st : Store) (notify : List Alert) (alert : Alert)
    (hfir : alert.status = "firing")
    (hnew : alookup st.alerts alert.fingerprint = none) :
    (dedupStep (st, notify) alert).2 =
      notify ++ [{ alert with mentionsSent := some initMentions }] ∧
    getActiveAlert (dedupStep (st, notify) alert).1 alert.fingerprint =
      some { alert with mentionsSent := some initMentions } ∧
    lastSentOf (some initMentions) (lastSentKey MType.primary) = 0 ∧
    lastSentOf (some initMentions) (lastSentKey MType.secondary) = 0 := by
  have hstep : dedupStep (st, notify) alert =
      (setActiveAlert st alert.fingerprint { alert with mentionsSent := some initMentions },
       notify ++ [{ alert with mentionsSent := some initMentions }]) := by
    unfold dedupStep
    simp only [if_pos hfir, hnew]
  rw [hstep]
  exact ⟨rfl, lookup_setActiveAlert_self st alert.fingerprint _, by decide, by decide⟩

/-- C5, witness: the scenario alert abc123 against the empty store. -/
theorem c5_new_firing_witness :
    c5Abc.status = "firing" ∧
    alookup (Store.mk [] [] []).alerts c5Abc.fingerprint = none ∧
    ((dedupStep (⟨[], [], []⟩, ([] : List Alert)) c5Abc).2 =
      [] ++ [{ c5Abc with mentionsSent := some initMentions }] ∧
    getActiveAlert (dedupStep (⟨[], [], []⟩, ([] : List Alert)) c5Abc).1 c5Abc.fingerprint =
      some { c5Abc with mentionsSent := some initMentions } ∧
    lastSentOf (some initMentions) (lastSentKey MType.primary) = 0 ∧
    lastSentOf (some initMentions) (lastSentKey MType.secondary) = 0) :=
  ⟨by decide, by decide, c5_new_firing ⟨[], [], []⟩ [] c5Abc (by decide) (by decide)⟩

/-! Claim C3 machinery: the deduplication loop on all-new and on
all-duplicate batches, and lookup preservation through the prune. -/

theorem dedup_foldl_new (batch : List Alert) (st : Store) (acc : List Alert)
    (hnd : (batch.map (fun b => b.fingerprint)).Nodup)
    (hfir : ∀ a ∈ batch, a.status = "firing")
    (hnew : ∀ a ∈ batch, alookup st.alerts a.fingerprint = none) :
    (batch.foldl dedupStep (st, acc)).2 =
      acc ++ batch.map (fun a => { a with mentionsSent := some initMentions }) ∧
    ∀ a ∈ batch, alookup (batch.foldl dedupStep (st, acc)).1.alerts a.fingerprint =
      some { a with mentionsSent := some initMentions } := by
  induction batch generalizing st acc with
  | nil => exact ⟨by simp, by simp⟩
  | cons a t ih =>
    simp only [List.map_cons, List.nodup_cons] at hnd
    have hstep : dedupStep (st, acc) a =
        (setActiveAlert st a.fingerprint { a with mentionsSent := some initMentions },
         acc ++ [{ a with mentionsSent := some initMentions }]) := by
      unfold dedupStep
      simp only [if_pos (hfir a (List.mem_cons_self _ _)), hnew a (List.mem_cons_self _ _)]
    have htnew : ∀ b ∈ t, alookup (setActiveAlert st a.fingerprint
        { a with mentionsSent := some initMentions }).alerts b.fingerprint = none := by
      intro b hb
      have hne : a.fingerprint ≠ b.fingerprint := by
        intro he
        exact hnd.1 (he ▸ List.mem_map.mpr ⟨b, hb, rfl⟩)
      rw [lookup_setActiveAlert_ne st hne]
      exact hnew b (List.mem_cons_of_mem _ hb)
    obtain ⟨ihn, ihl⟩ := ih _ (acc ++ [{ a with mentionsSent := some initMentions }]) hnd.2
      (fun b hb => hfir b (List.mem_cons_of_mem _ hb)) htnew
    constructor
    · simp [List.foldl_cons, hstep, ihn]
    · intro b hb
      rcases List.mem_cons.mp hb with hb1 | hb1
      · subst hb1
        simp only [List.foldl_cons, hstep]
        rw [dedup_foldl_lookup_ne t _ (by simpa using hnd.1)]
        exact lookup_setActiveAlert_self st b.fingerprint _
      · simp only [List.foldl_cons, hstep]
        exact ihl b hb1

theorem dedup_foldl_dup (batch : List Alert) (st : Store) (acc : List Alert)
    (hnd : (batch.map (fun b => b.fingerprint)).Nodup)
    (hfir : ∀ a ∈ batch, a.status = "firing")
    (hdup : ∀ a ∈ batch, ∃ ex, alookup st.alerts a.fingerprint = some ex ∧
      ex.mentionsSent = some initMentions) :
    (batch.foldl dedupStep (st, acc)).2 = acc ∧
    ∀ a ∈ batch, alookup (batch.foldl dedupStep (st, acc)).1.alerts a.fingerprint =
      some { a with mentionsSent := some initMentions } := by
  induction batch generalizing st acc with
  | nil => exact ⟨rfl, by simp⟩
  | cons a t ih =>
    simp only [List.map_cons, List.nodup_cons] at hnd
    obtain ⟨ex, hex, hexms⟩ := hdup a (List.mem_cons_self _ _)
    have hstep : dedupStep (st, acc) a =
        (setActiveAlert st a.fingerprint { a with mentionsSent := some initMentions },
         acc) := by
      unfold dedupStep
      simp only [if_pos (hfir a (List.mem_cons_self _ _)), hex, hexms]
    have htdup : ∀ b ∈ t, ∃ ex2, alookup (setActiveAlert st a.fingerprint
        { a with mentionsSent := some initMentions }).alerts b.fingerprint = some ex2 ∧
        ex2.mentionsSent = some initMentions := by
      intro b hb
      have hne : a.fingerprint ≠ b.fingerprint := by
        intro he
        exact hnd.1 (he ▸ List.mem_map.mpr ⟨b, hb, rfl⟩)
      rw [lookup_setActiveAlert_ne st hne]
      exact hdup b (List.mem_cons_of_mem _ hb)
    obtain ⟨ihn, ihl⟩ := ih _ acc hnd.2 (fun b hb => hfir b (List.mem_cons_of_mem _ hb)) htdup
    constructor
    · simp only [List.foldl_cons, hstep, ihn]
    · intro b hb
      rcases List.mem_cons.mp hb with hb1 | hb1
      · subst hb1
        simp only [List.foldl_cons, hstep]
        rw [dedup_foldl_lookup_ne t _ (by simpa using hnd.1)]
        exact lookup_setActiveAlert_self st b.fingerprint _
      · simp only [List.foldl_cons, hstep]
        exact ihl b hb1

theorem prune_foldl_lookup_mem (l : List Alert) (recv : List String) (st : Store)
    {id : String} (h : id ∈ recv) :
    alookup (l.foldl (pruneStep recv) st).alerts id = alookup st.alerts id := by
  induction l generalizing st with
  | nil => rfl
  | cons a t ih =>
    simp only [List.foldl_cons, pruneStep]
    by_cases hc : a.fingerprint ∈ recv
    · simp only [if_pos hc]
      exact ih st
    · simp only [if_neg hc]
      rw [ih]
      show alookup (eraseKey st.alerts a.fingerprint) id = _
      exact alookup_eraseKey_ne st.alerts (fun he => hc (he ▸ h))

/-- The alerts a unified webhook run stores for the members of an all-new
firing batch: each one becomes the payload alert with the initial
mentionsSent record, whichever branch (early return or prune) is taken. -/
theorem processUnified_lookup_new (st : Store) (batch : List Alert)
    (eids : List (Option String))
    (hnd : (batch.map (fun b => b.fingerprint)).Nodup)
    (hfir : ∀ a ∈ batch, a.status = "firing")
    (hnew : ∀ a ∈ batch, alookup st.alerts a.fingerprint = none) :
    ∀ a ∈ batch, alookup (processUnifiedWebhook st batch eids).store.alerts a.fingerprint =
      some { a with mentionsSent := some initMentions } := by
  intro a ha
  obtain ⟨ihn, ihl⟩ := dedup_foldl_new batch st [] hnd hfir hnew
  unfold processUnifiedWebhook
  by_cases h : (dedupLoop st batch).2 = []
  · simp only [if_pos h]
    exact ihl a ha
  · simp only [if_neg h]
    unfold pruneZombies
    rw [prune_foldl_lookup_mem _ _ _ (List.mem_map.mpr ⟨a, ha, rfl⟩)]
    rw [alerts_recordMessages]
    exact ihl a ha

theorem getActiveAlert_def (st : Store) (id : String) :
    getActiveAlert st id = alookup st.alerts id := rfl

/-- C3: delivering the same all-firing batch (pairwise distinct
fingerprints, none stored yet) twice yields exactly one individual
notification per alert and one stored alert per fingerprint: the first run
notifies every alert once, the second run notifies nothing, the stored
alert after the second run is the latest payload with the mention-tracking
sub-record of the first run carried forward unmodified, and the store still
holds at most one alert per fingerprint. -/
theorem c3_idempotent (st0 : Store) (batch : List Alert) (e1 e2 : List (Option String))
    (hwf : StoreWF st0)
    (hnd : (batch.map (fun b => b.fingerprint)).Nodup)
    (hfir : ∀ a ∈ batch, a.status = "firing")
    (hnew : ∀ a ∈ batch, getActiveAlert st0 a.fingerprint = none) :
    (processUnifiedWebhook st0 batch e1).notify =
      batch.map (fun a => { a with mentionsSent := some initMentions }) ∧
    (processUnifiedWebhook (processUnifiedWebhook st0 batch e1).store batch e2).notify = [] ∧
    (∀ a ∈ batch,
      getActiveAlert (processUnifiedWebhook (processUnifiedWebhook st0 batch e1).store
        batch e2).store a.fingerprint = some { a with mentionsSent := some initMentions }) ∧
    (∀ a ∈ batch,
      (getActiveAlert (processUnifiedWebhook (processUnifiedWebhook st0 batch e1).store
        batch e2).store a.fingerprint).map Alert.mentionsSent =
      (getActiveAlert (processUnifiedWebhook st0 batch e1).store a.fingerprint).map
        Alert.mentionsSent) ∧
    ((processUnifiedWebhook (processUnifiedWebhook st0 batch e1).store batch
      e2).store.alerts.map Prod.fst).Nodup := by
  set st1 := (processUnifiedWebhook st0 batch e1).store with hst1
  have hwf1 : StoreWF st1 := by
    rw [hst1]
    exact wf_processUnifiedWebhook hwf batch e1
  have hlk1 : ∀ a ∈ batch, alookup st1.alerts a.fingerprint =
      some { a with mentionsSent := some initMentions } := by
    rw [hst1]
    exact processUnified_lookup_new st0 batch e1 hnd hfir hnew
  have hdup : ∀ a ∈ batch, ∃ ex, alookup st1.alerts a.fingerprint = some ex ∧
      ex.mentionsSent = some initMentions :=
    fun a ha => ⟨_, hlk1 a ha, rfl⟩
  obtain ⟨hn2, hl2⟩ := dedup_foldl_dup batch st1 [] hnd hfir hdup
  have hnotify2 : (processUnifiedWebhook st1 batch e2).notify = [] := by
    rw [notify_processUnifiedWebhook]
    exact hn2
  have hstore2 : (processUnifiedWebhook st1 batch e2).store =
      (batch.foldl dedupStep (st1, [])).1 := by
    unfold processUnifiedWebhook dedupLoop
    rw [if_pos hn2]
  refine ⟨?_, hnotify2, ?_, ?_, ?_⟩
  · rw [notify_processUnifiedWebhook]
    exact (dedup_foldl_new batch st0 [] hnd hfir hnew).1
  · intro a ha
    rw [hstore2, getActiveAlert_def]
    exact hl2 a ha
  · intro a ha
    rw [hstore2, getActiveAlert_def, getActiveAlert_def, hl2 a ha, hlk1 a ha]
  · rw [hstore2]
    exact (wf_dedupFoldl batch (st1, []) hwf1).1

def c3A : Alert := ⟨"f1", "firing", [("alertname", "A")], [], 0, none⟩

def c3B : Alert := ⟨"f2", "firing", [("alertname", "B")], [], 0, none⟩

/-- C3, witness: a concrete two-alert firing batch delivered twice against
the empty store; the second delivery notifies nothing. -/
theorem c3_idempotent_witness :
    StoreWF (Store.mk [] [] []) ∧
    (([c3A, c3B].map (fun b => b.fingerprint)).Nodup) ∧
    (processUnifiedWebhook (processUnifiedWebhook ⟨[], [], []⟩ [c3A, c3B]
      [some "e1", some "e2"]).store [c3A, c3B] [some "e3", some "e4"]).notify = [] :=
  ⟨by decide, by decide,
    (c3_idempotent ⟨[], [], []⟩ [c3A, c3B] [some "e1", some "e2"] [some "e3", some "e4"]
      (by decide) (by decide) (by decide) (by decide)).2.1⟩

/-! Claim C2 machinery: the parsed schedule list is a sorted list of
non-negative minutes, timestamps are linear in the minute for non-negative
minutes, and find? returns the first match. -/

theorem getScheduleTimestamp_of_nonneg {m : Int} (h : 0 ≤ m) (d : Int) :
    getScheduleTimestamp d m = d + m * 60000 := by
  unfold getScheduleTimestamp
  rw [Int.fdiv_eq_ediv _ (by norm_num), Int.tmod_eq_emod h (by norm_num)]
  omega

theorem mem_insertSorted {α : Type} (le : α → α → Bool) (a : α) (l : List α) (x : α) :
    x ∈ insertSorted le a l ↔ x = a ∨ x ∈ l := by
  induction l with
  | nil => simp [insertSorted]
  | cons b t ih =>
    unfold insertSorted
    by_cases h : le a b
    · simp [h]
    · simp only [if_neg h, List.mem_cons, ih]
      tauto

theorem mem_sortList {α : Type} (le : α → α → Bool) (l : List α) (x : α) :
    x ∈ sortList le l ↔ x ∈ l := by
  induction l with
  | nil => simp [sortList]
  | cons b t ih =>
    unfold sortList at ih ⊢
    simp only [List.foldr_cons, mem_insertSorted, List.mem_cons, ih]

theorem sorted_insertSorted {α : Type} (le : α → α → Bool)
    (htrans : ∀ a b c, le a b = true → le b c = true → le a c = true)
    (htotal : ∀ a b, le a b = true ∨ le b a = true) (a : α) (l : List α)
    (h : List.Pairwise (fun x y => le x y = true) l) :
    List.Pairwise (fun x y => le x y = true) (insertSorted le a l) := by
  induction l with
  | nil => simp [insertSorted]
  | cons b t ih =>
    obtain ⟨hb, ht⟩ := List.pairwise_cons.mp h
    unfold insertSorted
    by_cases hab : le a b
    · rw [if_pos hab]
      refine List.pairwise_cons.mpr ⟨?_, h⟩
      intro x hx
      rcases List.mem_cons.mp hx with hx | hx
      · subst hx
        exact hab
      · exact htrans a b x hab (hb x hx)
    · rw [if_neg hab]
      refine List.pairwise_cons.mpr ⟨?_, ih ht⟩
      intro x hx
      rcases (mem_insertSorted le a t x).mp hx with hx | hx
      · subst hx
        rcases htotal x b with hc | hc
        · exact absurd hc hab
        · exact hc
      · exact hb x hx

theorem sorted_sortList {α : Type} (le : α → α → Bool)
    (htrans : ∀ a b c, le a b = true → le b c = true → le a c = true)
    (htotal : ∀ a b, le a b = true ∨ le b a = true) (l : List α) :
    List.Pairwise (fun x y => le x y = true) (sortList le l) := by
  induction l with
  | nil => simp [sortList]
  | cons b t ih =>
    unfold sortList at ih ⊢
    simp only [List.foldr_cons]
    exact sorted_insertSorted le htrans htotal b _ ih

theorem parseScheduleMinutes_nonneg (s : String) :
    ∀ m ∈ parseScheduleMinutes s, 0 ≤ m := by
  intro m hm
  unfold parseScheduleMinutes at hm
  have hm2 := (mem_sortList _ _ _).mp hm
  have := List.of_mem_filter hm2
  simpa using this

theorem parseScheduleMinutes_sorted (s : String) :
    List.Pairwise (fun a b => a ≤ b) (parseScheduleMinutes s) := by
  unfold parseScheduleMinutes
  have h := sorted_sortList (fun a b : Int => decide (a ≤ b))
    (fun a b c hab hbc => by
      simp only [decide_eq_true_eq] at hab hbc ⊢
      omega)
    (fun a b => by
      simp only [decide_eq_true_eq]
      omega)
    (((jsSplit s ',').map (fun x => parseTimeToMinutes (jsTrim x))).filter
      (fun m => decide (0 ≤ m)))
  exact h.imp (by simp)

theorem parsedScheduleTimestamps_sorted (d : Int) (s : String) :
    List.Pairwise (fun a b => a ≤ b) (parsedScheduleTimestamps d s) := by
  unfold parsedScheduleTimestamps
  rw [List.pairwise_map]
  apply List.Pairwise.imp_of_mem ?_ (parseScheduleMinutes_sorted s)
  intro a b ha hb hab
  rw [getScheduleTimestamp_of_nonneg (parseScheduleMinutes_nonneg s a ha),
    getScheduleTimestamp_of_nonneg (parseScheduleMinutes_nonneg s b hb)]
  omega

theorem find?_first {α : Type} {p : α → Bool} {l : List α} {a : α}
    (h : l.find? p = some a) :
    ∃ l1 l2, l = l1 ++ a :: l2 ∧ ∀ x ∈ l1, p x = false := by
  induction l with
  | nil => simp at h
  | cons b t ih =>
    by_cases hb : p b
    · rw [List.find?_cons_of_pos _ hb] at h
      cases h
      exact ⟨[], t, rfl, by simp⟩
    · rw [List.find?_cons_of_neg _ hb] at h
      obtain ⟨l1, l2, he, hall⟩ := ih h
      refine ⟨b :: l1, l2, by rw [he]; rfl, ?_⟩
      intro x hx
      rcases List.mem_cons.mp hx with hx | hx
      · subst hx
        exact Bool.of_not_eq_true hb
      · exact hall x hx

theorem sorted_find?_minimal {p : Int → Bool} {l : List Int} {a : Int}
    (hs : List.Pairwise (fun x y => x ≤ y) l) (h : l.find? p = some a) :
    ∀ b ∈ l, p b = true → a ≤ b := by
  obtain ⟨l1, l2, he, hall⟩ := find?_first h
  subst he
  intro b hb hpb
  rcases List.mem_append.mp hb with hb | hb
  · rw [hall b hb] at hpb
    cases hpb
  · rcases List.mem_cons.mp hb with hb | hb
    · subst hb
      exact le_refl _
    · have := (List.pairwise_append.mp hs).2.1
      exact (List.pairwise_cons.mp this).1 b hb

theorem scheduleBase_of_ge {st : Store} {sev : String}
    (h : 10000 ≤ getLastSentSchedule st sev) (d : Int) :
    scheduleBase d st sev = (st, getLastSentSchedule st sev) := by
  unfold scheduleBase
  rw [if_neg (by omega)]

/-- C2, counterexample: with schedule 08:00,16:00, last-fired 20000 ms and
the tick exactly at the scheduled instant 08:00:00.000 UTC (now equal to
the scheduled timestamp 28800000), a scheduled timestamp that is less than
or equal to now and greater than last-fired exists, yet checkSchedule does
not fire, because the source compares with strict less-than against now. -/
theorem c2_counterexample :
    (28800000 : Int) ∈ parsedScheduleTimestamps 0 "08:00,16:00" ∧
    (28800000 : Int) ≤ 28800000 ∧ (20000 : Int) < 28800000 ∧
    (10000 : Int) ≤ getLastSentSchedule ⟨[], [], [("CRIT", 20000)]⟩ "CRIT" ∧
    (checkSchedule 0 28800000 ⟨[], [], [("CRIT", 20000)]⟩ "CRIT" "08:00,16:00").2 = false := by
  decide

/-- C2, amended: on a tick with a non-empty schedule string and a last-fired
value already in timestamp form (at least 10000), checkSchedule fires
exactly when some scheduled timestamp of the current day is strictly below
the current time and strictly above the persisted last-fired value; the
timestamp that fires is the first qualifying one of the ascending schedule
list (it is minimal among qualifying timestamps), at most one fires per
tick, and it is persisted as the new last-fired value; when nothing fires
the store is unchanged.  In particular a tick at exactly the scheduled
instant does not fire; any tick strictly after it that day does. -/
theorem c2_schedule (dayStart now : Int) (st : Store) (sev str : String)
    (hstr : str ≠ "")
    (hls : 10000 ≤ getLastSentSchedule st sev) :
    ((checkSchedule dayStart now st sev str).2 = true ↔
      ∃ ts ∈ parsedScheduleTimestamps dayStart str,
        ts < now ∧ getLastSentSchedule st sev < ts) ∧
    (∀ ts, (parsedScheduleTimestamps dayStart str).find?
        (fun ts => decide (ts < now) && decide (getLastSentSchedule st sev < ts)) = some ts →
      checkSchedule dayStart now st sev str = (setLastSentSchedule st sev ts, true) ∧
      ts ∈ parsedScheduleTimestamps dayStart str ∧
      ts < now ∧ getLastSentSchedule st sev < ts ∧
      ∀ ts2 ∈ parsedScheduleTimestamps dayStart str,
        ts2 < now → getLastSentSchedule st sev < ts2 → ts ≤ ts2) ∧
    ((checkSchedule dayStart now st sev str).2 = false →
      checkSchedule dayStart now st sev str = (st, false)) := by
  have hbase := scheduleBase_of_ge hls dayStart
  have hrun : checkSchedule dayStart now st sev str =
      (if parsedScheduleTimestamps dayStart str = [] then (st, false)
       else match (parsedScheduleTimestamps dayStart str).find?
          (fun ts => decide (ts < now) && decide (getLastSentSchedule st sev < ts)) with
        | some ts => (setLastSentSchedule st sev ts, true)
        | none => (st, false)) := by
    unfold checkSchedule
    rw [if_neg hstr, hbase]
  by_cases hempty : parsedScheduleTimestamps dayStart str = []
  · rw [hrun, if_pos hempty]
    refine ⟨?_, ?_, fun _ => rfl⟩
    · simp [hempty]
    · intro ts hts
      rw [hempty] at hts
      simp at hts
  · rw [hrun, if_neg hempty]
    cases hf : (parsedScheduleTimestamps dayStart str).find?
        (fun ts => decide (ts < now) && decide (getLastSentSchedule st sev < ts)) with
    | none =>
      refine ⟨?_, ?_, fun _ => rfl⟩
      · constructor
        · intro h
          exact absurd h (by simp)
        · rintro ⟨ts, hmem, h1, h2⟩
          have hnone := List.find?_eq_none.mp hf ts hmem
          simp only [Bool.and_eq_true, decide_eq_true_eq] at hnone
          exact absurd (And.intro h1 h2) hnone
      · intro ts hts
        cases hts
    | some ts =>
      have hmem := List.mem_of_find?_eq_some hf
      have hp := List.find?_some hf
      simp only [Bool.and_eq_true, decide_eq_true_eq] at hp
      refine ⟨?_, ?_, ?_⟩
      · exact iff_of_true rfl ⟨ts, hmem, hp.1, hp.2⟩
      · intro ts2 hts2
        cases hts2
        refine ⟨rfl, hmem, hp.1, hp.2, ?_⟩
        intro ts3 hmem3 h1 h2
        apply sorted_find?_minimal (parsedScheduleTimestamps_sorted dayStart str) hf ts3 hmem3
        simp only [Bool.and_eq_true, decide_eq_true_eq]
        exact ⟨h1, h2⟩
      · intro h
        exact absurd h (by simp)

/-- C2, witness: schedule 08:00,16:00 with last-fired 20000; a tick one
millisecond after 08:00 fires and persists the 08:00 timestamp; a later
tick at 08:05 the same day does not re-fire; a tick just after 08:00 the
next day fires again. -/
theorem c2_schedule_witness :
    ("08:00,16:00" : String) ≠ "" ∧
    (10000 : Int) ≤ getLastSentSchedule ⟨[], [], [("CRIT", 20000)]⟩ "CRIT" ∧
    checkSchedule 0 28800001 ⟨[], [], [("CRIT", 20000)]⟩ "CRIT" "08:00,16:00" =
      (setLastSentSchedule ⟨[], [], [("CRIT", 20000)]⟩ "CRIT" 28800000, true) ∧
    (checkSchedule 0 29100000 ⟨[], [], [("CRIT", 28800000)]⟩ "CRIT" "08:00,16:00").2 = false ∧
    (checkSchedule 86400000 115200001 ⟨[], [], [("CRIT", 28800000)]⟩ "CRIT"
      "08:00,16:00").2 = true :=
  ⟨by decide, by decide,
    ((c2_schedule 0 28800001 ⟨[], [], [("CRIT", 20000)]⟩ "CRIT" "08:00,16:00"
      (by decide) (by decide)).2.1 28800000 (by decide)).1,
    by decide, by decide⟩

/-! Claim C6: the mention delay gate. -/

def c6Conf : MentionConf := ⟨["@u1"], [], 5, 5, -1, -1, none, none, none, none⟩

def c6Alert : Alert := ⟨"d1", "firing", [("host", "db1"), ("severity", "CRIT")], [], 0, none⟩

/-- C6, counterexample: an alert whose duration since start equals the
configured delay exactly (5 minutes) does not fire in loop strategy when
its repeat is null, so the claim that the delay boundary always fires is
false. -/
theorem c6_counterexample :
    (selectPolicy c6Conf (jsToUpper (getAlertValue c6Alert "severity" "UNKNOWN"))
      MType.primary).1 = 5 ∧
    (300000 : Int) - c6Alert.startsAt = 5 * 60000 ∧
    (checkMentionU c6Conf c6Alert MType.primary "loop" 300000).1 = false := by
  decide

/-- C6, amended: for every alert, mention type, severity class and
strategy, a negative selected delay never fires and a duration strictly
below the delay threshold never fires; at the boundary, a duration exactly
equal to the delay passes the delay gate and fires whenever the repeat
policy permits it in the evaluation context, for instance in webhook
strategy with a null repeat (while at delay minus one minute it never
fires, by the second clause). -/
theorem c6_delay_gate (conf : MentionConf) (alert : Alert) (t : MType) (strategy : String)
    (now : Int) :
    ((selectPolicy conf (jsToUpper (getAlertValue alert "severity" "UNKNOWN")) t).1 < 0 →
      (checkMentionU conf alert t strategy now).1 = false) ∧
    (now - alert.startsAt <
        (selectPolicy conf (jsToUpper (getAlertValue alert "severity" "UNKNOWN")) t).1 * 60000 →
      (checkMentionU conf alert t strategy now).1 = false) ∧
    ((selectPolicy conf (jsToUpper (getAlertValue alert "severity" "UNKNOWN")) t).2 = none →
      0 ≤ (selectPolicy conf (jsToUpper (getAlertValue alert "severity" "UNKNOWN")) t).1 →
      now - alert.startsAt =
        (selectPolicy conf (jsToUpper (getAlertValue alert "severity" "UNKNOWN")) t).1 * 60000 →
      (checkMentionU conf alert t "webhook" now).1 = true) := by
  refine ⟨?_, ?_, ?_⟩
  · intro h
    unfold checkMentionU
    rw [if_pos h]
  · intro h
    unfold checkMentionU
    by_cases h0 : (selectPolicy conf (jsToUpper (getAlertValue alert "severity" "UNKNOWN"))
        t).1 < 0
    · rw [if_pos h0]
    · rw [if_neg h0, if_pos h]
  · intro hrep hd hdur
    unfold checkMentionU
    rw [if_neg (by omega), if_neg (by omega), hrep]
    simp

/-- C6, witness: the boundary alert in webhook strategy fires at exactly
five minutes and does not fire at four minutes. -/
theorem c6_delay_gate_witness :
    (selectPolicy c6Conf (jsToUpper (getAlertValue c6Alert "severity" "UNKNOWN"))
      MType.primary).2 = none ∧
    (checkMentionU c6Conf c6Alert MType.primary "webhook" 300000).1 = true ∧
    (checkMentionU c6Conf c6Alert MType.primary "webhook" 240000).1 = false :=
  ⟨by decide,
    (c6_delay_gate c6Conf c6Alert MType.primary "webhook" 300000).2.2 (by decide) (by decide)
      (by decide),
    (c6_delay_gate c6Conf c6Alert MType.primary "webhook" 240000).2.1 (by decide)⟩

/-! Claim C7 machinery. -/

theorem alookup_map_set (l : List (String × JsVal)) (key : String) (v : Int) :
    alookup (l.map (fun p => if p.1 = key then (p.1, JsVal.num v) else p)) key =
      (alookup l key).map (fun _ => JsVal.num v) := by
  induction l with
  | nil => rfl
  | cons p t ih =>
    obtain ⟨k, w⟩ := p
    simp only [List.map_cons]
    by_cases h : k = key
    · subst h
      rw [if_pos rfl]
      simp [alookup]
    · rw [if_neg h]
      simp only [alookup]
      rw [if_neg h, if_neg h]
      exact ih

theorem alookup_msSet (ms : Option (List (String × JsVal))) (key : String) (v : Int) :
    alookup (msSet ms key v) key = some (JsVal.num v) := by
  unfold msSet
  by_cases h : (alookup (ms.getD []) key).isSome
  · rw [if_pos h, alookup_map_set]
    obtain ⟨w, hw⟩ := Option.isSome_iff_exists.mp h
    rw [hw]
    rfl
  · rw [if_neg h, alookup_append, Option.not_isSome_iff_eq_none.mp h]
    simp [alookup]

theorem lastSentOf_msSet (ms : Option (List (String × JsVal))) (key : String) (v : Int) :
    lastSentOf (some (msSet ms key v)) key = v := by
  simp only [lastSentOf, alookup_msSet]

/-- The reduced form of the tick checkMention when the selected policy is a
positive repeat and the alert is past its delay. -/
theorem checkMentionTick_interval (conf : MentionConf) (severity : String) (t : MType)
    (durMs now : Int) (ms : Option (List (String × JsVal))) (dirty : Bool)
    {r delay : Int} (hpol : selectPolicy conf severity t = (delay, some r))
    (hd : 0 ≤ delay) (hr : 0 < r) (hdur : delay * 60000 ≤ durMs) :
    checkMentionTick conf severity durMs now ms dirty t =
      if r * 60000 ≤ now - lastSentOf ms (lastSentKey t) then
        (true, some (msSet ms (lastSentKey t) now), true)
      else (false, ms, dirty) := by
  unfold checkMentionTick
  rw [hpol]
  rw [if_neg (by simp; omega), if_neg (by simp; omega)]
  simp only []
  rw [if_neg (by omega), if_neg (by omega)]

/-- C7: in tick context, for a selected policy with positive repeat r and
an alert past its delay, the mention fires exactly when now minus the
last_sent value reaches r minutes; on firing, last_sent is set to now and
the dirty flag is raised; a subsequent evaluation on the updated record
fires exactly when r minutes have passed since the first firing (so with
r = 60 two evaluations 59 minutes apart never both fire, and one at 60
minutes or later fires); and a dirtied alert is persisted by the tick loop
under its fingerprint. -/
theorem c7_repeat_interval (conf : MentionConf) (severity : String) (t : MType)
    (durMs now : Int) (ms : Option (List (String × JsVal))) (dirty : Bool)
    (r delay : Int)
    (hpol : selectPolicy conf severity t = (delay, some r))
    (hd : 0 ≤ delay) (hr : 0 < r) (hdur : delay * 60000 ≤ durMs) :
    ((checkMentionTick conf severity durMs now ms dirty t).1 = true ↔
      r * 60000 ≤ now - lastSentOf ms (lastSentKey t)) ∧
    ((checkMentionTick conf severity durMs now ms dirty t).1 = true →
      lastSentOf (checkMentionTick conf severity durMs now ms dirty t).2.1 (lastSentKey t) =
        now ∧
      (checkMentionTick conf severity durMs now ms dirty t).2.2 = true) ∧
    (∀ durMs2 now2 dirty2,
      (checkMentionTick conf severity durMs now ms dirty t).1 = true →
      delay * 60000 ≤ durMs2 →
      ((checkMentionTick conf severity durMs2 now2
          (checkMentionTick conf severity durMs now ms dirty t).2.1 dirty2 t).1 = true ↔
        r * 60000 ≤ now2 - now)) ∧
    (∀ (st : Store) (fp host : String) (a : Alert),
      st.alerts = [(fp, a)] → a.fingerprint = fp →
      jsOrStr (alookup a.labels "host") (jsOrStr (alookup a.labels "instance") "") = host →
      host ≠ "" →
      (tickEvalAlert conf now a).2.2 = true →
      getActiveAlert (tickMentions [(host, conf)] now st).1 fp =
        some (tickEvalAlert conf now a).2.1) := by
  have hrun := checkMentionTick_interval conf severity t durMs now ms dirty hpol hd hr hdur
  refine ⟨?_, ?_, ?_, ?_⟩
  · rw [hrun]
    by_cases hc : r * 60000 ≤ now - lastSentOf ms (lastSentKey t)
    · simp [hc]
    · simp [hc]
  · rw [hrun]
    by_cases hc : r * 60000 ≤ now - lastSentOf ms (lastSentKey t)
    · rw [if_pos hc]
      intro _
      exact ⟨lastSentOf_msSet ms (lastSentKey t) now, rfl⟩
    · rw [if_neg hc]
      intro h
      cases h
  · intro durMs2 now2 dirty2 hfired hdur2
    rw [hrun] at hfired ⊢
    by_cases hc : r * 60000 ≤ now - lastSentOf ms (lastSentKey t)
    · rw [if_pos hc]
      rw [checkMentionTick_interval conf severity t durMs2 now2 _ dirty2 hpol hd hr hdur2]
      rw [lastSentOf_msSet]
      by_cases hc2 : r * 60000 ≤ now2 - now
      · simp [hc2]
      · simp [hc2]
    · rw [if_neg hc] at hfired
      cases hfired
  · intro st fp host a hst hafp hhost hne hdirty
    have hpatch : getAllActiveAlerts st = [a] := by
      unfold getAllActiveAlerts
      rw [hst]
      by_cases h0 : a.fingerprint = ""
      · simp only [List.map_cons, List.map_nil, if_pos h0]
        rw [show ({ a with fingerprint := fp } : Alert) = a by
          cases a
          simp only [Alert.mk.injEq] at hafp ⊢
          simp_all]
      · simp [h0]
    unfold tickMentions
    rw [hpatch]
    simp only [List.foldl_cons, List.foldl_nil]
    unfold tickStep
    rw [hhost, if_neg hne]
    simp only [alookup, eq_self_iff_true, if_true]
    rw [if_pos hdirty, hafp]
    by_cases hu : sortList (fun a b => decide (a ≤ b))
        (jsSetDedup (tickEvalAlert conf now a).1) = []
    · rw [if_pos hu]
      exact lookup_setActiveAlert_self st fp _
    · rw [if_neg hu]
      exact lookup_setActiveAlert_self st fp _

def c7Conf : MentionConf := ⟨["@u1"], ["@u2"], 0, 30, 60, -1, some 60, some (-1), none, none⟩

def c7Alert : Alert := ⟨"m1", "firing", [("host", "db1"), ("severity", "CRIT")], [], 0,
  some initMentions⟩

/-- C7, witness: repeat 60 for CRIT primary; at tick time 7200000 ms the
mention fires (last_sent reads 0) and last_sent becomes 7200000; 59 minutes
later it does not fire; the persistence clause applied to a singleton
store. -/
theorem c7_repeat_interval_witness :
    selectPolicy c7Conf "CRIT" MType.primary = (0, some 60) ∧
    (checkMentionTick c7Conf "CRIT" 7200000 7200000 (some initMentions) false
      MType.primary).1 = true ∧
    (checkMentionTick c7Conf "CRIT" (7200000 + 59 * 60000) (7200000 + 59 * 60000)
      (checkMentionTick c7Conf "CRIT" 7200000 7200000 (some initMentions) false
        MType.primary).2.1 false MType.primary).1 = false ∧
    getActiveAlert (tickMentions [("db1", c7Conf)] 7200000
      ⟨[("m1", c7Alert)], [], []⟩).1 "m1" = some (tickEvalAlert c7Conf 7200000 c7Alert).2.1 :=
  ⟨by decide,
    by decide,
    by
      have h := (c7_repeat_interval c7Conf "CRIT" MType.primary 7200000 7200000
        (some initMentions) false 60 0 (by decide) (by decide) (by decide) (by decide)).2.2.1
        (7200000 + 59 * 60000) (7200000 + 59 * 60000) false (by decide) (by decide)
      by_cases hb : (checkMentionTick c7Conf "CRIT" (7200000 + 59 * 60000)
          (7200000 + 59 * 60000) (checkMentionTick c7Conf "CRIT" 7200000 7200000
          (some initMentions) false MType.primary).2.1 false MType.primary).1 = true
      · have := h.mp hb
        omega
      · simpa using hb,
    (c7_repeat_interval c7Conf "CRIT" MType.primary 7200000 7200000 (some initMentions)
      false 60 0 (by decide) (by decide) (by decide) (by decide)).2.2.2
      ⟨[("m1", c7Alert)], [], []⟩ "m1" "db1" c7Alert rfl (by decide) (by decide) (by decide)
      (by decide)⟩

/-! Claim C8: negative repeat. -/

def c8Conf : MentionConf := ⟨["@u1"], [], 0, 30, -1, -1, some (-1), none, none, none⟩

def c8Alert : Alert := ⟨"m1", "firing", [("host", "db1"), ("severity", "CRIT")], [], 0,
  some initMentions⟩

def c8Store : Store := ⟨[("m1", c8Alert)], [], []⟩

/-- C8 (code bug): with repeat -1 for CRIT primary (documented as mention
once, do not repeat), the repeat-below-zero branch never records the send:
the first tick fires but leaves the mentionsSent record and the dirty flag
untouched, the store is unchanged, and the next tick fires the same mention
again, so the mention is not at most once per alert over a tick sequence. -/
theorem c8_refires :
    (checkMentionTick c8Conf "CRIT" 60000 60000 (some initMentions) false MType.primary).1 =
      true ∧
    (checkMentionTick c8Conf "CRIT" 60000 60000 (some initMentions) false
      MType.primary).2 = (some initMentions, false) ∧
    (tickMentions [("db1", c8Conf)] 60000 c8Store).1 = c8Store ∧
    (tickMentions [("db1", c8Conf)] 60000 c8Store).2 = [("m1", ["@u1"])] ∧
    (tickMentions [("db1", c8Conf)] 120000
      (tickMentions [("db1", c8Conf)] 60000 c8Store).1).2 = [("m1", ["@u1"])] := by
  decide

/-! Claim C9: the silence workflow. -/

def c9Alert : Alert := ⟨"a", "firing",
  [("host", "db1"), ("alertname", "HighCPU")], [("severity", "CRIT")], 0, some initMentions⟩

def c9Store : Store := ⟨[("a", c9Alert)], [("evA", "a"), ("evB", "a")], []⟩

/-- C9 (code bug): the silence workflow calls the async Grafana function
without awaiting it, so the truthiness test sees the pending Promise and
always takes the success branch: even when the Grafana call fails (eventual
result false) the alert and all of its message mappings are deleted, the
success confirmation is sent and the confirm reaction is emitted; the
failure-notice branch is dead code and the store is not left untouched. -/
theorem c9_silence_ignores_failure :
    createGrafanaSilence c9Store "a" (some "evA") false =
      ⟨⟨[], [], []⟩, ["🔇 Alert silenced for 24h: CRIT db1 HighCPU"], some "☑️"⟩ ∧
    getActiveAlert (createGrafanaSilence c9Store "a" (some "evA") false).store "a" = none := by
  decide

/-! Claim C10: parseTimeToMinutes. -/

/-- C10, counterexample: the input 0:-1 is non-empty and both of its parts
convert to numbers (0 and -1), yet parseTimeToMinutes returns -1 (the
value 0 times 60 plus -1), so -1 is not returned exactly on unparseable
input. -/
theorem c10_counterexample :
    ("0:-1" : String) ≠ "" ∧
    (((jsSplit "0:-1" ':').map jsNumber).getD 0 none) = some 0 ∧
    (((jsSplit "0:-1" ':').map jsNumber).getD 1 none) = some (-1) ∧
    parseTimeToMinutes "0:-1" = -1 := by
  decide

/-- C10, amended: parseTimeToMinutes returns -1 whenever the input is empty
or its hour or minute part is NaN under Number conversion; for every other
input it returns hours times 60 plus minutes with no range validation
(which can itself be -1, as for 0:-1); in particular 25:99 evaluates to
1599 and passes the schedule non-negative filter instead of being
discarded. -/
theorem c10_parseTimeToMinutes (s : String) (h m : Int) :
    (s = "" → parseTimeToMinutes s = -1) ∧
    ((((jsSplit s ':').map jsNumber).getD 0 none) = none → parseTimeToMinutes s = -1) ∧
    ((((jsSplit s ':').map jsNumber).getD 1 none) = none → parseTimeToMinutes s = -1) ∧
    (s ≠ "" → (((jsSplit s ':').map jsNumber).getD 0 none) = some h →
      (((jsSplit s ':').map jsNumber).getD 1 none) = some m →
      parseTimeToMinutes s = h * 60 + m) ∧
    parseTimeToMinutes "25:99" = 1599 ∧
    parseScheduleMinutes "25:99" = [1599] := by
  refine ⟨?_, ?_, ?_, ?_, by decide, by decide⟩
  · intro he
    unfold parseTimeToMinutes
    rw [if_pos he]
  · intro h0
    unfold parseTimeToMinutes
    by_cases he : s = ""
    · rw [if_pos he]
    · rw [if_neg he]
      dsimp only
      rw [h0]
  · intro h1
    unfold parseTimeToMinutes
    by_cases he : s = ""
    · rw [if_pos he]
    · rw [if_neg he]
      dsimp only
      rw [h1]
      cases h0 : ((jsSplit s ':').map jsNumber).getD 0 none <;> rfl
  · intro he h0 h1
    unfold parseTimeToMinutes
    rw [if_neg he]
    dsimp only
    rw [h0, h1]

/-- C10, witness: the amended characterization applied to 25:99. -/
theorem c10_parseTimeToMinutes_witness :
    ("25:99" : String) ≠ "" ∧
    (((jsSplit "25:99" ':').map jsNumber).getD 0 none) = some 25 ∧
    (((jsSplit "25:99" ':').map jsNumber).getD 1 none) = some 99 ∧
    parseTimeToMinutes "25:99" = 25 * 60 + 99 :=
  ⟨by decide, by decide, by decide,
    (c10_parseTimeToMinutes "25:99" 25 99).2.2.2.1 (by decide) (by decide) (by decide)⟩

end G2M
